import Mathlib

/-!
# Verification of the mail-downloader core against its specification

Shallow embedding of the Go sources (`mail.go`, the imap fetch pipeline,
`main.go`, and the content handlers) together with theorems settling the
specification claims about the metadata index, the fetch pipeline, the MIME
part walk, attachment filename sanitization and the text handler.

External collaborators (the content sniffer `mimetype.Detect`, the JSON
marshaller) are modelled as parameters: the sniffer as a pair of total
functions giving a type label and an extension for a byte buffer, the
marshaller as an opaque serialization function.
-/

/-- Error values flowing through the parser.  `unexpectedEOF` stands for Go's
`io.ErrUnexpectedEOF`, which the source compares against by identity; every
other error is carried as its message string. -/
inductive Err where
  | unexpectedEOF
  | other (msg : String)
  deriving DecidableEq, Repr

/-- An address record as in `go-imap`'s `Address`. -/
structure Address where
  PersonalName : String
  MailboxName : String
  HostName : String
  deriving DecidableEq, Repr

/-- A calendar date standing for the `time.Time` values the program formats. -/
structure Date where
  year : Nat
  month : Nat
  day : Nat
  deriving DecidableEq, Repr

def pad2 (n : Nat) : String :=
  if n < 10 then "0" ++ toString n else toString n

def pad4 (n : Nat) : String :=
  if n < 10 then "000" ++ toString n
  else if n < 100 then "00" ++ toString n
  else if n < 1000 then "0" ++ toString n
  else toString n

/-- Go's `Date.Format("200601")`. -/
def Date.formatYYYYMM (d : Date) : String :=
  pad4 d.year ++ pad2 d.month

/-- Go's `Date.Format("2006-01-02")`. -/
def Date.formatISO (d : Date) : String :=
  pad4 d.year ++ "-" ++ pad2 d.month ++ "-" ++ pad2 d.day

/-- An attachment record (`mail.go`, type `attachment`). -/
structure Attachment where
  Filename : String
  Body : List Nat
  Mimetype : String
  deriving DecidableEq, Repr

/-- The in-memory mail record (`mail.go`, type `mail`).  `Error` is an
`Option Err` standing for Go's nilable `error` field; bodies are byte lists. -/
structure Mail where
  Uid : Nat
  MessageID : String
  Subject : String
  From : List Address
  Date : Date
  Body : List (List Nat)
  Attachments : List Attachment
  MimeType : String
  MultipartMimeType : List String
  AttachmentMimeType : List String
  Error : Option Err
  deriving DecidableEq, Repr

/-- The zero value of the `mail` struct (`new(mail)` in Go). -/
def Mail.empty : Mail :=
  { Uid := 0, MessageID := "", Subject := "", From := [], Date := ⟨0, 0, 0⟩
    Body := [], Attachments := [], MimeType := ""
    MultipartMimeType := [], AttachmentMimeType := [], Error := none }

/-- The persisted projection of a mail (`mail.go`, type `jsonMail`). -/
structure JsonMail where
  Uid : Nat
  MessageID : String
  Subject : String
  From : List String
  Date : Date
  Attachments : List String
  MimeType : String
  MultipartMimeType : List String
  AttachmentMimeType : List String
  deriving DecidableEq, Repr

/-- Address rendering done inside `mail.toJson` (`mail.go`):
`"Name <box@host>"` when a display name is present, `"box@host"` otherwise. -/
def renderAddress (a : Address) : String :=
  if a.PersonalName ≠ "" then
    a.PersonalName ++ " <" ++ a.MailboxName ++ "@" ++ a.HostName ++ ">"
  else
    a.MailboxName ++ "@" ++ a.HostName

/-- `mail.toJson` followed by `json.Unmarshal` into a `jsonMail`
(`mail.go`): the JSON round trip is the identity at this level, so the
composition is the field-by-field projection. -/
def Mail.toJsonMail (mail : Mail) : JsonMail :=
  { Uid := mail.Uid
    MessageID := mail.MessageID
    Subject := mail.Subject
    From := mail.From.map renderAddress
    Date := mail.Date
    Attachments := mail.Attachments.map (fun a => a.Filename)
    MimeType := mail.MimeType
    MultipartMimeType := mail.MultipartMimeType
    AttachmentMimeType := mail.AttachmentMimeType }

/-- The lookup-replace-or-append loop inside `mailList.addMail` (`mail.go`
lines 112-123): scan the list, structurally replace the first entry with the
same `Uid`, and append at the end when no entry matches. -/
def addMailEntry : List JsonMail → JsonMail → List JsonMail
  | [], jm => [jm]
  | e :: rest, jm =>
    if e.Uid = jm.Uid then jm :: rest else e :: addMailEntry rest jm

/-- The per-account metadata document (`mail.go`, type `mailList`).
The `entries` field embeds the Go field `List`. -/
structure MailList where
  Email : String
  entries : List JsonMail
  Vendor : String
  Server : String
  path : String
  deriving DecidableEq, Repr

/-- `mailList.addMail` without the trailing `save` call (persistence of the
updated document is modelled by `MailList.save` below). -/
def MailList.addMail (ml : MailList) (m : Mail) : MailList :=
  { ml with entries := addMailEntry ml.entries m.toJsonMail }

/-- Number of entries of the index carrying a given identifier. -/
def countUid (u : Nat) (l : List JsonMail) : Nat :=
  (l.filter (fun e => e.Uid = u)).length

/-- A filesystem snapshot: each path maps to its content, `none` when the
file does not exist. -/
def FS : Type := String → Option String

/-- `os.WriteFile`. -/
def writeFS (fs : FS) (p v : String) : FS :=
  fun q => if q = p then some v else fs q

/-- `os.Rename src dst`: the destination takes the source's content and the
source disappears. -/
def renameFS (fs : FS) (src dst : String) : FS :=
  fun q => if q = dst then fs src else if q = src then none else fs q

/-- `os.Remove`. -/
def removeFS (fs : FS) (p : String) : FS :=
  fun q => if q = p then none else fs q

/-- Fault injection points for `mailList.save`: the happy path, a crash
between the temp-file write and the rename, and a failing rename (after
which the code removes the temp file). -/
inductive SaveFault where
  | ok
  | crashBeforeRename
  | renameFails
  deriving DecidableEq, Repr

/-- `mailList.save` (`mail.go` lines 127-146): marshal the whole document,
write it to `path + ".tmp"`, then rename the temp file over `path`; on a
rename failure the temp file is removed and an error returned. -/
def saveDoc (fs : FS) (path data : String) (fault : SaveFault) : FS × Option Err :=
  let tmp := path ++ ".tmp"
  let fs1 := writeFS fs tmp data
  match fault with
  | .ok => (renameFS fs1 tmp path, none)
  | .crashBeforeRename => (fs1, some (.other "crash between temp write and rename"))
  | .renameFails => (removeFS fs1 tmp, some (.other "failed to save metadata"))

/-- `mailList.save` applied to a document, with the JSON encoder
(`json.MarshalIndent`) as an opaque parameter. -/
def MailList.save (marshal : MailList → String) (fs : FS) (ml : MailList)
    (fault : SaveFault) : FS × Option Err :=
  saveDoc fs ml.path (marshal ml) fault

/-- Go's `utf8.RuneError` replacement character. -/
def runeErrorChar : Char := Char.ofNat 0xFFFD

/-- `imap.fixUtf`: `strings.Map` dropping every `utf8.RuneError` rune. -/
def fixUtf (s : String) : String :=
  String.mk (s.data.filter (fun c => c ≠ runeErrorChar))

/-- `strings.ReplaceAll(filename, "/", "-")` from `fetchBody`. -/
def replaceSlashes (s : String) : String :=
  String.mk (s.data.map (fun c => if c = '/' then '-' else c))

/-- The two sanitization passes `fetchBody` applies to every attachment
filename, in source order: `fixUtf` then slash replacement. -/
def sanitizeName (s : String) : String := replaceSlashes (fixUtf s)

/-- One decimal digit character. -/
def decDigit (d : Nat) : Char :=
  match d % 10 with
  | 0 => '0' | 1 => '1' | 2 => '2' | 3 => '3' | 4 => '4'
  | 5 => '5' | 6 => '6' | 7 => '7' | 8 => '8' | _ => '9'

/-- Decimal digit expansion of a natural number, most significant first —
the rendering `fmt.Sprintf("%d", n)` produces.  The first argument is
recursion fuel; any fuel at least the number itself suffices, since the
quotient by ten shrinks strictly each step. -/
def natDigitsGo : Nat → Nat → List Char → List Char
  | 0, n, acc => decDigit n :: acc
  | fuel + 1, n, acc =>
    if n < 10 then decDigit n :: acc
    else natDigitsGo fuel (n / 10) (decDigit (n % 10) :: acc)

/-- Decimal rendering of a natural number (`%d`). -/
def natToString (n : Nat) : String := String.mk (natDigitsGo n n [])

/-- The synthesized attachment filename
`fmt.Sprintf("%d-%d%s", mail.Uid, count.Next(), mime.Extension())`. -/
def synthName (uid ord : Nat) (ext : String) : String :=
  natToString uid ++ "-" ++ natToString ord ++ ext

/-- Modelled from the spec: the `counter` package
(`github.com/loeffel-io/mail-downloader/counter`) is part of this repository
but absent from the sources at hand.  Per the spec, `Next` yields a
per-message, monotonically increasing ordinal; consistently with
`generatePdf` (which treats `Current() == 0` as "no call to `Next` yet"),
a fresh counter holds `0` and `Next` increments it and returns the new
value. -/
def counterNext (c : Nat) : Nat × Nat := (c + 1, c + 1)

/-- Outcome of `io.ReadAll(part.Body)` for one MIME part. -/
inductive ReadResult where
  | bytes (b : List Nat)
  | failure (e : Err)
  deriving DecidableEq, Repr

/-- Outcome of `header.Filename()` for an attachment part. -/
inductive FilenameResult where
  | name (s : String)
  | failure (e : Err)
  deriving DecidableEq, Repr

/-- One `reader.NextPart()` event: an inline part, an attachment part, or a
non-EOF iteration error (end of the event list stands for `io.EOF`). -/
inductive PartEvent where
  | inlinePart (read : ReadResult)
  | attachmentPart (filename : FilenameResult) (read : ReadResult)
  | nextPartFailure (e : Err)
  deriving DecidableEq, Repr

/-- The `go-message` mail reader as `fetchBody` consumes it: the top-level
content type when the header parses (`reader.Header.ContentType()` — its
error value is discarded by the source), and the part-event stream. -/
structure MailReader where
  contentType : Option String
  parts : List PartEvent
  deriving DecidableEq, Repr

section Parser

-- The content sniffer `mimetype.Detect(…).String()` and
-- `mimetype.Detect(…).Extension()`: opaque, total collaborator functions.
variable (sniff sniffExt : List Nat → String)

/-- The part-walk loop of `mail.fetchBody` (`mail.go` lines 169-220):
`c` is the per-message ordinal counter, `bodies`/`atts` the accumulated
inline bodies and attachments.  Inline parts whose read fails with
`io.ErrUnexpectedEOF` are skipped; every other read, filename or iteration
failure aborts the walk with that error. -/
def fetchBodyLoop (uid : Nat) :
    List PartEvent → Nat → List (List Nat) → List Attachment →
    Except Err (List (List Nat) × List Attachment)
  | [], _, bodies, atts => .ok (bodies, atts)
  | .nextPartFailure e :: _, _, _, _ => .error e
  | .inlinePart (.failure .unexpectedEOF) :: rest, c, bodies, atts =>
    fetchBodyLoop uid rest c bodies atts
  | .inlinePart (.failure (.other msg)) :: _, _, _, _ => .error (.other msg)
  | .inlinePart (.bytes body) :: rest, c, bodies, atts =>
    fetchBodyLoop uid rest c (bodies ++ [body]) atts
  | .attachmentPart (.failure e) _ :: _, _, _, _ => .error e
  | .attachmentPart (.name _) (.failure e) :: _, _, _, _ => .error e
  | .attachmentPart (.name filename) (.bytes body) :: rest, c, bodies, atts =>
    if filename = "" then
      let next := counterNext c
      fetchBodyLoop uid rest next.1 bodies
        (atts ++ [⟨sanitizeName (synthName uid next.2 (sniffExt body)), body, sniff body⟩])
    else
      fetchBodyLoop uid rest c bodies
        (atts ++ [⟨sanitizeName filename, body, sniff body⟩])

/-- `mail.fetchBody` (`mail.go` lines 156-226): record the header content
type when present, then walk the parts; on success `Body` and `Attachments`
are assigned, on failure they are left untouched and the error returned. -/
def Mail.fetchBody (mail : Mail) (reader : MailReader) : Mail × Option Err :=
  let mail1 := match reader.contentType with
    | some ct => { mail with MimeType := ct }
    | none => mail
  match fetchBodyLoop sniff sniffExt mail1.Uid reader.parts 0 [] [] with
  | .error e => (mail1, some e)
  | .ok res => ({ mail1 with Body := res.1, Attachments := res.2 }, none)

end Parser

/-- Events the part walk passes without aborting (possibly by skipping). -/
def okOrSkip : PartEvent → Bool
  | .inlinePart (.bytes _) => true
  | .inlinePart (.failure .unexpectedEOF) => true
  | .attachmentPart (.name _) (.bytes _) => true
  | _ => false

/-- Events the part walk consumes into an output entry (no skip, no abort). -/
def goodEvent : PartEvent → Bool
  | .inlinePart (.bytes _) => true
  | .attachmentPart (.name _) (.bytes _) => true
  | _ => false

def PartEvent.isInlinePart : PartEvent → Bool
  | .inlinePart _ => true
  | _ => false

def PartEvent.isAttachmentPart : PartEvent → Bool
  | .attachmentPart _ _ => true
  | _ => false

/-- The inline bodies the walk keeps, in order of appearance. -/
def inlineBodiesOf : List PartEvent → List (List Nat)
  | [] => []
  | .inlinePart (.bytes b) :: rest => b :: inlineBodiesOf rest
  | _ :: rest => inlineBodiesOf rest

/-- Declared filename and bytes of each well-read attachment part, in order. -/
def attachPairs : List PartEvent → List (String × List Nat)
  | [] => []
  | .attachmentPart (.name f) (.bytes b) :: rest => (f, b) :: attachPairs rest
  | _ :: rest => attachPairs rest

section Parser2

variable (sniff sniffExt : List Nat → String)

/-- The attachment records the walk produces from the attachment parts,
starting from counter value `c`. -/
def attachSpecOf (uid : Nat) : Nat → List (String × List Nat) → List Attachment
  | _, [] => []
  | c, (f, b) :: rest =>
    if f = "" then
      ⟨sanitizeName (synthName uid (c + 1) (sniffExt b)), b, sniff b⟩ ::
        attachSpecOf uid (c + 1) rest
    else
      ⟨sanitizeName f, b, sniff b⟩ :: attachSpecOf uid c rest

end Parser2

/-- Number of unnamed attachment parts strictly before index `j`. -/
def unnamedBefore (pairs : List (String × List Nat)) (j : Nat) : Nat :=
  ((pairs.take j).filter (fun p => p.1 = "")).length

/-- The protocol envelope of a fetched message (`go-imap`'s `Envelope`). -/
structure Envelope where
  MessageId : String
  Subject : String
  From : List Address
  Date : Date
  deriving DecidableEq, Repr

/-- What `message.GetBody(section)` followed by `m.CreateReader` yields for
one fetched message: a nil reader, a reader whose `CreateReader` fails, or a
working mail reader. -/
inductive GetBodyResult where
  | noReader
  | createReaderError (e : Err)
  | reader (r : MailReader)
  deriving DecidableEq, Repr

/-- One raw message delivered by the message source. -/
structure Message where
  Uid : Nat
  Envelope : Envelope
  BodyStructure : Option (String × String)
  body : GetBodyResult
  deriving DecidableEq, Repr

/-- `mail.fetchMeta` (`mail.go` lines 148-154) applied to the zero mail
`new(mail)` allocates in `fetchMessages`. -/
def Mail.fetchMeta (message : Message) : Mail :=
  { Mail.empty with
    Uid := message.Uid
    MessageID := message.Envelope.MessageId
    Subject := message.Envelope.Subject
    From := message.Envelope.From
    Date := message.Envelope.Date }

section Pipeline

variable (sniff sniffExt : List Nat → String)

/-- The per-message body of the `fetchMessages` loop (the imap source,
lines 212-274): build the mail from the envelope and body structure; a nil
body-section reader aborts the whole fetch with `"no reader"`; a
`CreateReader` failure yields an error-carrying mail; otherwise the body is
parsed and the sniffed per-part type labels appended to the two
(empty-initialized) parallel lists. -/
def processMessage (message : Message) : Except Err Mail :=
  let mail := Mail.fetchMeta message
  let mail := match message.BodyStructure with
    | some bs => { mail with MimeType := bs.1 ++ "/" ++ bs.2 }
    | none => mail
  match message.body with
  | .noReader => .error (.other "no reader")
  | .createReaderError e => .ok { mail with Error := some e }
  | .reader r =>
    let mail := { mail with MultipartMimeType := [], AttachmentMimeType := [] }
    let res := Mail.fetchBody sniff sniffExt mail r
    let mail := { res.1 with Error := res.2 }
    let mail := { mail with
      MultipartMimeType :=
        mail.MultipartMimeType ++ (mail.Body.filter (fun b => !b.isEmpty)).map sniff
      AttachmentMimeType :=
        mail.AttachmentMimeType ++
          (mail.Attachments.filter (fun a => !a.Body.isEmpty)).map (fun a => sniff a.Body) }
    .ok mail

/-- The mail `processMessage` emits for a message it does not abort on. -/
def processedMail (message : Message) : Mail :=
  match processMessage sniff sniffExt message with
  | .ok mail => mail
  | .error _ => Mail.empty

/-- `imap.fetchMessages` over the list of messages the source delivers:
mails are sent on the output channel in processing order; an abort stops the
loop, loses the remaining messages, and returns the error. -/
def fetchMessages : List Message → List Mail × Option Err
  | [] => ([], none)
  | msg :: rest =>
    match processMessage sniff sniffExt msg with
    | .error e => ([], some e)
    | .ok mail =>
      let res := fetchMessages rest
      (mail :: res.1, res.2)

/-- Observable outcome of the producer goroutine in `main` (`main.go` lines
82-87): the mails sent on `mailsChan`, how many times the channel was
closed, and whether `log.Fatal` terminated the process (in which case
`close(mailsChan)` never runs). -/
structure PipelineResult where
  emitted : List Mail
  closeCount : Nat
  fatal : Bool
  deriving DecidableEq, Repr

/-- The producer goroutine of `main`: run `fetchMessages`; on error
`log.Fatal` (process exit, channel never closed), otherwise close the
channel exactly once. -/
def runPipeline (msgs : List Message) : PipelineResult :=
  match fetchMessages sniff sniffExt msgs with
  | (mails, none) => ⟨mails, 1, false⟩
  | (mails, some _) => ⟨mails, 0, true⟩

end Pipeline

/-- The mails `main` passes to `mailList.addMail` (`main.go` lines 104-112):
exactly those received with nil `Error`. -/
def indexedMails (mails : List Mail) : List Mail :=
  mails.filter (fun m => m.Error.isNone)

/-- The mails `main` routes through the handlers (`main.go` lines 131-146):
error-carrying mails are logged and skipped. -/
def handledMails (mails : List Mail) : List Mail :=
  mails.filter (fun m => m.Error.isNone)

/-- `mail.getDirectoryName` (`mail.go` lines 264-269).  The source indexes
`mail.From[0]` unconditionally; the model returns `none` exactly when that
access would be out of bounds (a runtime panic in Go). -/
def Mail.getDirectoryName (mail : Mail) (root username : String) : Option String :=
  match mail.From with
  | [] => none
  | addr :: _ =>
    some (root ++ "/" ++ username ++ "/" ++ mail.Date.formatYYYYMM ++ "/" ++ addr.HostName)

/-- Go's whitespace test used by `strings.TrimSpace` on the characters the
program meets. -/
def isSpaceChar (c : Char) : Bool :=
  c = ' ' || c = '\t' || c = '\n' || c = '\r'

/-- `strings.TrimSpace`. -/
def trimSpace (s : String) : String :=
  String.mk (((s.data.dropWhile isSpaceChar).reverse.dropWhile isSpaceChar).reverse)

/-- `mimeType` (handlers source, lines 395-398): the declared type up to the
first `;`, trimmed. -/
def mimeType (mime : String) : String :=
  trimSpace (String.mk (mime.data.takeWhile (fun c => c ≠ ';')))

/-- A filesystem-unsafe character per `sanitizeSubject`'s regular expression. -/
def isUnsafeChar (c : Char) : Bool :=
  c = '/' || c = '\\' || c = ':' || c = '*' || c = '?' || c = '"' ||
    c = '<' || c = '>' || c = '|'

/-- `sanitizeSubject` (handlers source, lines 460-464): trim, then replace
every unsafe character with an underscore. -/
def sanitizeSubject (subject : String) : String :=
  String.mk ((trimSpace subject).data.map (fun c => if isUnsafeChar c then '_' else c))

/-- A filesystem snapshot for byte files written by the handlers. -/
def ByteFS : Type := String → Option (List Nat)

/-- `os.WriteFile` for byte files. -/
def writeByteFS (fs : ByteFS) (p : String) (v : List Nat) : ByteFS :=
  fun q => if q = p then some v else fs q

/-- Apply a sequence of writes in order; a later write to the same path
overwrites an earlier one. -/
def applyWrites (fs : ByteFS) : List (String × List Nat) → ByteFS
  | [] => fs
  | w :: rest => applyWrites (writeByteFS fs w.1 w.2) rest

section Handlers

variable (sniff : List Nat → String)

/-- The multipart branch of `TextHandler.Handle` (handlers source, lines
430-450): for each inline body, in order, sniff its type and write it to the
fixed `.txt` or `.html` filename, skipping parts sniffed as neither. -/
def multipartWrites (dir base : String) : List (List Nat) → List (String × List Nat)
  | [] => []
  | body :: rest =>
    let detected := mimeType (sniff body)
    if detected = "text/plain" then
      (dir ++ "/" ++ base ++ ".txt", body) :: multipartWrites dir base rest
    else if detected = "text/html" then
      (dir ++ "/" ++ base ++ ".html", body) :: multipartWrites dir base rest
    else
      multipartWrites dir base rest

/-- The text-content handler (handlers source, type `TextHandler`). -/
structure TextHandler where
  username : String
  deriving DecidableEq, Repr

/-- `TextHandler.Handle` (handlers source, lines 400-457) as the ordered
list of file writes it performs: `none` models the `From[0]` panic inside
`getDirectoryName`, `some ws` the writes of a completed call. -/
def TextHandler.Handle (h : TextHandler) (mail : Mail) :
    Option (List (String × List Nat)) :=
  match mail.Body with
  | [] => some []
  | b0 :: _ =>
    match mail.getDirectoryName "mail" h.username with
    | none => none
    | some dir =>
      let base := sanitizeSubject mail.Subject ++ "-" ++ mail.Date.formatISO ++ "-" ++
        natToString mail.Uid
      let declared := mimeType mail.MimeType
      if declared = "text/plain" then
        some [(dir ++ "/" ++ base ++ ".txt", b0)]
      else if declared = "text/html" then
        some [(dir ++ "/" ++ base ++ ".html", b0)]
      else if declared = "multipart/alternative" ∨ declared = "multipart/mixed" then
        some (multipartWrites sniff dir base mail.Body)
      else
        some []

end Handlers

/-- The error component of an `Except` result, as the nilable Go error the
caller stores. -/
def exceptErr {α : Type} : Except Err α → Option Err
  | .error e => some e
  | .ok _ => none

/-- A concrete content sniffer used for evaluation: bodies starting with
`<` (byte 60) classify as HTML, everything else as plain text. -/
def sniff0 (b : List Nat) : String :=
  if b.head? = some 60 then "text/html; charset=utf-8" else "text/plain; charset=utf-8"

/-- Extension mate of `sniff0`. -/
def ext0 (b : List Nat) : String :=
  if b.head? = some 60 then ".html" else ".txt"

/-- A sample envelope with a non-empty `From` list. -/
def envSample : Envelope :=
  ⟨"<mid@example.com>", "Hello", [⟨"Alice", "alice", "example.com"⟩], ⟨2024, 1, 2⟩⟩

/-- A fetched message whose body-section reader is nil (`GetBody` returns
no reader). -/
def msgNoReader : Message := ⟨101, envSample, some ("text", "plain"), .noReader⟩

/-- A fetched message that parses cleanly into one plain-text body. -/
def msgPlain : Message :=
  ⟨102, envSample, some ("text", "plain"),
    .reader ⟨some "text/plain", [.inlinePart (.bytes [104, 105])]⟩⟩

/-- A fetched message with exactly one inline part whose read ends in
`io.ErrUnexpectedEOF`. -/
def msgUeofInline : Message :=
  ⟨103, envSample, some ("multipart", "mixed"),
    .reader ⟨some "multipart/mixed", [.inlinePart (.failure .unexpectedEOF)]⟩⟩

/-- A fetched message whose envelope `From` list is empty but which parses
without error. -/
def msgEmptyFrom : Message :=
  ⟨104, ⟨"<m4@example.com>", "S", [], ⟨2024, 1, 2⟩⟩, none,
    .reader ⟨some "text/plain", [.inlinePart (.bytes [104])]⟩⟩

/-- A successfully parsed mail whose declared top-level type is
`multipart/related` and whose sole inline body sniffs as plain text. -/
def mailRelated : Mail :=
  { Mail.empty with
    Uid := 9
    Subject := "Sub"
    From := [⟨"", "a", "b.com"⟩]
    Date := ⟨2024, 1, 2⟩
    Body := [[104, 105]]
    MimeType := "multipart/related" }

-- Helper lemmas for the metadata index.

theorem addMailEntry_find (l : List JsonMail) (jm : JsonMail) :
    (addMailEntry l jm).find? (fun e => e.Uid = jm.Uid) = some jm := by
  induction l with
  | nil => simp [addMailEntry, List.find?]
  | cons e rest ih =>
    by_cases h : e.Uid = jm.Uid
    · simp [addMailEntry, h, List.find?]
    · simp [addMailEntry, h, List.find?_cons_of_neg, ih]

theorem countUid_cons (u : Nat) (e : JsonMail) (rest : List JsonMail) :
    countUid u (e :: rest) =
      (if e.Uid = u then 1 else 0) + countUid u rest := by
  by_cases he : e.Uid = u
  · simp [countUid, List.filter_cons, he]
    omega
  · simp [countUid, List.filter_cons, he]

theorem addMailEntry_count_self (l : List JsonMail) (jm : JsonMail)
    (h : countUid jm.Uid l ≤ 1) :
    countUid jm.Uid (addMailEntry l jm) = 1 := by
  induction l with
  | nil => simp [addMailEntry, countUid]
  | cons e rest ih =>
    by_cases he : e.Uid = jm.Uid
    · have hrest : countUid jm.Uid rest = 0 := by
        rw [countUid_cons, if_pos he] at h
        omega
      rw [addMailEntry, if_pos he, countUid_cons, if_pos rfl, hrest]
    · have h' : countUid jm.Uid rest ≤ 1 := by
        rw [countUid_cons, if_neg he] at h
        omega
      rw [addMailEntry, if_neg he, countUid_cons, if_neg he, ih h']

theorem addMailEntry_not_mem (l : List JsonMail) (jm : JsonMail)
    (h : countUid jm.Uid l = 0) :
    addMailEntry l jm = l ++ [jm] := by
  induction l with
  | nil => simp [addMailEntry]
  | cons e rest ih =>
    by_cases he : e.Uid = jm.Uid
    · exfalso
      rw [countUid_cons, if_pos he] at h
      omega
    · rw [countUid_cons, if_neg he] at h
      simp only [addMailEntry, if_neg he, List.cons_append, List.cons.injEq, true_and]
      exact ih (by omega)

theorem addMailEntry_replace (l1 l2 : List JsonMail) (e jm : JsonMail)
    (huid : e.Uid = jm.Uid) (hfresh : countUid jm.Uid l1 = 0) :
    addMailEntry (l1 ++ e :: l2) jm = l1 ++ jm :: l2 := by
  induction l1 with
  | nil => simp [addMailEntry, huid]
  | cons x rest ih =>
    by_cases hx : x.Uid = jm.Uid
    · exfalso
      rw [countUid_cons, if_pos hx] at hfresh
      omega
    · rw [countUid_cons, if_neg hx] at hfresh
      simp only [List.cons_append, addMailEntry, if_neg hx, List.cons.injEq, true_and]
      exact ih (by omega)

theorem foldl_addMailEntry_length (jms : List JsonMail) :
    ∀ l : List JsonMail,
      (∀ jm ∈ jms, countUid jm.Uid l = 0) →
      (jms.map (fun jm => jm.Uid)).Nodup →
      (jms.foldl addMailEntry l).length = l.length + jms.length := by
  induction jms with
  | nil => intro l _ _; simp
  | cons jm rest ih =>
    intro l hfresh hnodup
    have hjm : countUid jm.Uid l = 0 := hfresh jm (by simp)
    have hstep : addMailEntry l jm = l ++ [jm] := addMailEntry_not_mem l jm hjm
    rw [List.map_cons, List.nodup_cons] at hnodup
    have hne : ∀ x ∈ rest, x.Uid ≠ jm.Uid := by
      intro x hx hcontra
      have hmem : x.Uid ∈ rest.map (fun jm => jm.Uid) :=
        List.mem_map_of_mem (fun jm => jm.Uid) hx
      rw [hcontra] at hmem
      exact hnodup.1 hmem
    have hfresh' : ∀ x ∈ rest, countUid x.Uid (l ++ [jm]) = 0 := by
      intro x hx
      have h1 : countUid x.Uid l = 0 := hfresh x (by simp [hx])
      have h2 : countUid x.Uid [jm] = 0 := by
        rw [countUid_cons, if_neg (fun hcontra => hne x hx hcontra.symm)]
        simp [countUid]
      simp only [countUid, List.filter_append, List.length_append] at h1 h2 ⊢
      omega
    have := ih (l ++ [jm]) hfresh' hnodup.2
    rw [List.foldl_cons, hstep, this]
    simp
    omega

/-- C3: `addMail` is an upsert keyed by `Uid`: when the first entry with the
same `Uid` exists it is structurally replaced in place, otherwise the record
is appended; upserting the same `Uid` twice with different `Subject` values
leaves exactly one entry with that `Uid`, holding the latest `Subject`; and
`N` upserts of `N` distinct `Uid`s starting from an empty index leave exactly
`N` entries in the persisted list. -/
theorem addMail_upsert_by_uid
    (l l1 l2 : List JsonMail) (e jm jm1 jm2 : JsonMail) (m : Mail) (ml : MailList)
    (huid : e.Uid = jm.Uid) (hfresh : countUid jm.Uid l1 = 0)
    (h12 : jm1.Uid = jm2.Uid) (hl : countUid jm2.Uid l ≤ 1)
    (jms : List JsonMail) (hnodup : (jms.map (fun x => x.Uid)).Nodup) :
    addMailEntry (l1 ++ e :: l2) jm = l1 ++ jm :: l2 ∧
    addMailEntry l1 jm = l1 ++ [jm] ∧
    countUid jm2.Uid (addMailEntry (addMailEntry l jm1) jm2) = 1 ∧
    (addMailEntry (addMailEntry l jm1) jm2).find? (fun x => x.Uid = jm2.Uid) = some jm2 ∧
    (jms.foldl addMailEntry []).length = jms.length ∧
    (ml.addMail m).entries = addMailEntry ml.entries m.toJsonMail ∧
    m.toJsonMail.Uid = m.Uid := by
  refine ⟨addMailEntry_replace l1 l2 e jm huid hfresh,
    addMailEntry_not_mem l1 jm hfresh, ?_, ?_, ?_, rfl, rfl⟩
  · have h1 : countUid jm2.Uid (addMailEntry l jm1) = 1 := by
      have := addMailEntry_count_self l jm1 (by rw [h12]; exact hl)
      rwa [h12] at this
    exact addMailEntry_count_self (addMailEntry l jm1) jm2 (by omega)
  · exact addMailEntry_find (addMailEntry l jm1) jm2
  · simpa using foldl_addMailEntry_length jms [] (by intro jm _; simp [countUid]) hnodup

/-- Witness for C3 at concrete inputs. -/
theorem addMail_upsert_by_uid_witness :
    addMailEntry ([] ++ (⟨5, "", "old", [], ⟨2024,1,1⟩, [], "", [], []⟩ : JsonMail) :: []) ⟨5, "", "mid", [], ⟨2024,1,1⟩, [], "", [], []⟩ = [] ++ (⟨5, "", "mid", [], ⟨2024,1,1⟩, [], "", [], []⟩ : JsonMail) :: [] ∧
    countUid 5 (addMailEntry (addMailEntry [] ⟨5, "", "mid", [], ⟨2024,1,1⟩, [], "", [], []⟩) ⟨5, "", "new", [], ⟨2024,1,1⟩, [], "", [], []⟩) = 1 ∧
    (addMailEntry (addMailEntry [] ⟨5, "", "mid", [], ⟨2024,1,1⟩, [], "", [], []⟩) ⟨5, "", "new", [], ⟨2024,1,1⟩, [], "", [], []⟩).find? (fun x => x.Uid = 5) = some ⟨5, "", "new", [], ⟨2024,1,1⟩, [], "", [], []⟩ ∧
    (([⟨1, "", "a", [], ⟨2024,1,1⟩, [], "", [], []⟩, ⟨2, "", "b", [], ⟨2024,1,1⟩, [], "", [], []⟩, ⟨3, "", "c", [], ⟨2024,1,1⟩, [], "", [], []⟩] : List JsonMail).foldl addMailEntry []).length = 3 := by
  have h := addMail_upsert_by_uid
    [] [] [] ⟨5, "", "old", [], ⟨2024,1,1⟩, [], "", [], []⟩
    ⟨5, "", "mid", [], ⟨2024,1,1⟩, [], "", [], []⟩
    ⟨5, "", "mid", [], ⟨2024,1,1⟩, [], "", [], []⟩
    ⟨5, "", "new", [], ⟨2024,1,1⟩, [], "", [], []⟩
    Mail.empty ⟨"", [], "", "", ""⟩
    rfl (by decide) rfl (by decide)
    [⟨1, "", "a", [], ⟨2024,1,1⟩, [], "", [], []⟩, ⟨2, "", "b", [], ⟨2024,1,1⟩, [], "", [], []⟩, ⟨3, "", "c", [], ⟨2024,1,1⟩, [], "", [], []⟩]
    (by decide)
  exact ⟨h.1, h.2.2.1, h.2.2.2.1, h.2.2.2.2.1⟩

-- C4: atomic persistence.

theorem append_tmp_ne (path : String) : path ++ ".tmp" ≠ path := by
  intro h
  have h2 := congrArg String.length h
  rw [String.length_append] at h2
  have h4 : (".tmp" : String).length = 4 := rfl
  omega

/-- C4: `save` writes the full document to `path + ".tmp"` and renames over
`path`; if execution stops between the temp write and the rename, or the
rename itself fails, the previously persisted content at `path` is unchanged,
and on the happy path `path` holds exactly the new document — a reader sees
the old or the new complete document, never a partial one. -/
theorem save_atomic (marshal : MailList → String) (fs : FS) (ml : MailList) :
    (ml.save marshal fs .crashBeforeRename).1 ml.path = fs ml.path ∧
    (ml.save marshal fs .renameFails).1 ml.path = fs ml.path ∧
    (ml.save marshal fs .ok).1 ml.path = some (marshal ml) := by
  have hne : ml.path ≠ ml.path ++ ".tmp" := fun h => append_tmp_ne ml.path h.symm
  refine ⟨?_, ?_, ?_⟩
  · simp [MailList.save, saveDoc, writeFS, hne]
  · simp [MailList.save, saveDoc, writeFS, removeFS, hne]
  · simp [MailList.save, saveDoc, writeFS, renameFS]

-- Helper lemmas for the part walk.

theorem fetchBodyLoop_skip_ueof (sniff sniffExt : List Nat → String) (uid : Nat)
    (pre post : List PartEvent) :
    ∀ c bodies atts,
      fetchBodyLoop sniff sniffExt uid
          (pre ++ .inlinePart (.failure .unexpectedEOF) :: post) c bodies atts =
        fetchBodyLoop sniff sniffExt uid (pre ++ post) c bodies atts := by
  induction pre with
  | nil =>
    intro c bodies atts
    simp [fetchBodyLoop]
  | cons ev rest ih =>
    intro c bodies atts
    cases ev with
    | nextPartFailure e => simp [fetchBodyLoop]
    | inlinePart r =>
      cases r with
      | bytes b => simp [fetchBodyLoop, ih]
      | failure e =>
        cases e with
        | unexpectedEOF => simp [fetchBodyLoop, ih]
        | other m => simp [fetchBodyLoop]
    | attachmentPart f r =>
      cases f with
      | failure e => simp [fetchBodyLoop]
      | name f =>
        cases r with
        | failure e => simp [fetchBodyLoop]
        | bytes b =>
          by_cases hf : f = "" <;> simp [fetchBodyLoop, hf, counterNext, ih]

theorem fetchBodyLoop_append_ok (sniff sniffExt : List Nat → String) (uid : Nat)
    (pre : List PartEvent) (rest : List PartEvent) :
    pre.all okOrSkip = true →
    ∀ c bodies atts, ∃ c2 bodies2 atts2,
      fetchBodyLoop sniff sniffExt uid (pre ++ rest) c bodies atts =
        fetchBodyLoop sniff sniffExt uid rest c2 bodies2 atts2 := by
  induction pre with
  | nil => intro _ c bodies atts; exact ⟨c, bodies, atts, rfl⟩
  | cons ev tail ih =>
    intro hall c bodies atts
    rw [List.all_cons, Bool.and_eq_true] at hall
    obtain ⟨hev, htail⟩ := hall
    cases ev with
    | nextPartFailure e => simp [okOrSkip] at hev
    | inlinePart r =>
      cases r with
      | bytes b =>
        obtain ⟨c2, b2, a2, h⟩ := ih htail c (bodies ++ [b]) atts
        exact ⟨c2, b2, a2, by simpa [fetchBodyLoop] using h⟩
      | failure e =>
        cases e with
        | unexpectedEOF =>
          obtain ⟨c2, b2, a2, h⟩ := ih htail c bodies atts
          exact ⟨c2, b2, a2, by simpa [fetchBodyLoop] using h⟩
        | other m => simp [okOrSkip] at hev
    | attachmentPart f r =>
      cases f with
      | failure e => simp [okOrSkip] at hev
      | name f =>
        cases r with
        | failure e => simp [okOrSkip] at hev
        | bytes b =>
          by_cases hf : f = ""
          · obtain ⟨c2, b2, a2, h⟩ := ih htail (c + 1) bodies
              (atts ++ [⟨sanitizeName (synthName uid (c + 1) (sniffExt b)), b, sniff b⟩])
            exact ⟨c2, b2, a2, by simpa [fetchBodyLoop, hf, counterNext] using h⟩
          · obtain ⟨c2, b2, a2, h⟩ := ih htail c bodies
              (atts ++ [⟨sanitizeName f, b, sniff b⟩])
            exact ⟨c2, b2, a2, by simpa [fetchBodyLoop, hf] using h⟩

theorem fetchBody_snd (sniff sniffExt : List Nat → String) (mail : Mail) (r : MailReader) :
    (Mail.fetchBody sniff sniffExt mail r).2 =
      exceptErr (fetchBodyLoop sniff sniffExt mail.Uid r.parts 0 [] []) := by
  obtain ⟨ct, parts⟩ := r
  cases ct with
  | none =>
    simp only [Mail.fetchBody]
    cases fetchBodyLoop sniff sniffExt mail.Uid parts 0 [] [] <;> simp [exceptErr]
  | some c =>
    simp only [Mail.fetchBody]
    cases fetchBodyLoop sniff sniffExt mail.Uid parts 0 [] [] <;> simp [exceptErr]

theorem processedMail_reader_Error (sniff sniffExt : List Nat → String)
    (uid : Nat) (env : Envelope) (bs : Option (String × String)) (r : MailReader) :
    (processedMail sniff sniffExt ⟨uid, env, bs, .reader r⟩).Error =
      exceptErr (fetchBodyLoop sniff sniffExt uid r.parts 0 [] []) := by
  cases bs with
  | none =>
    simp only [processedMail, processMessage]
    rw [fetchBody_snd]
    simp [Mail.fetchMeta, Mail.empty]
  | some b =>
    simp only [processedMail, processMessage]
    rw [fetchBody_snd]
    simp [Mail.fetchMeta, Mail.empty]

/-- C9: an `io.ErrUnexpectedEOF` while reading an inline part makes the walk
silently skip that part — parsing gives exactly the same result as for the
message without it, so it contributes no `Body` entry and no error — whereas
any other read error on an inline part, and the same unexpected-EOF
condition on an attachment part, abort the walk and are recorded as the
mail's parse `Error`. -/
theorem inline_ueof_skipped_other_read_errors_fatal
    (sniff sniffExt : List Nat → String)
    (mail : Mail) (ct : Option String) (pre post : List PartEvent)
    (msgstr fn : String) (env : Envelope) (uid : Nat) (bs : Option (String × String))
    (hpre : pre.all okOrSkip = true) :
    (Mail.fetchBody sniff sniffExt mail
        ⟨ct, pre ++ .inlinePart (.failure .unexpectedEOF) :: post⟩ =
      Mail.fetchBody sniff sniffExt mail ⟨ct, pre ++ post⟩) ∧
    ((Mail.fetchBody sniff sniffExt mail
        ⟨ct, pre ++ .inlinePart (.failure (.other msgstr)) :: post⟩).2 =
      some (.other msgstr)) ∧
    ((Mail.fetchBody sniff sniffExt mail
        ⟨ct, pre ++ .attachmentPart (.name fn) (.failure .unexpectedEOF) :: post⟩).2 =
      some .unexpectedEOF) ∧
    ((processedMail sniff sniffExt
        ⟨uid, env, bs,
          .reader ⟨ct, pre ++ .inlinePart (.failure (.other msgstr)) :: post⟩⟩).Error =
      some (.other msgstr)) ∧
    ((processedMail sniff sniffExt
        ⟨uid, env, bs,
          .reader ⟨ct, pre ++ .attachmentPart (.name fn) (.failure .unexpectedEOF) :: post⟩⟩).Error =
      some .unexpectedEOF) := by
  have hskip := fun u => fetchBodyLoop_skip_ueof sniff sniffExt u pre post
  have hinline : ∀ u, fetchBodyLoop sniff sniffExt u
      (pre ++ .inlinePart (.failure (.other msgstr)) :: post) 0 [] [] =
      .error (.other msgstr) := by
    intro u
    obtain ⟨c2, b2, a2, h⟩ := fetchBodyLoop_append_ok sniff sniffExt u pre
      (.inlinePart (.failure (.other msgstr)) :: post) hpre 0 [] []
    rw [h]
    simp [fetchBodyLoop]
  have hattach : ∀ u, fetchBodyLoop sniff sniffExt u
      (pre ++ .attachmentPart (.name fn) (.failure .unexpectedEOF) :: post) 0 [] [] =
      .error .unexpectedEOF := by
    intro u
    obtain ⟨c2, b2, a2, h⟩ := fetchBodyLoop_append_ok sniff sniffExt u pre
      (.attachmentPart (.name fn) (.failure .unexpectedEOF) :: post) hpre 0 [] []
    rw [h]
    simp [fetchBodyLoop]
  refine ⟨?_, ?_, ?_, ?_, ?_⟩
  · simp only [Mail.fetchBody]
    rw [hskip]
  · rw [fetchBody_snd, hinline, exceptErr]
  · rw [fetchBody_snd, hattach, exceptErr]
  · rw [processedMail_reader_Error, hinline, exceptErr]
  · rw [processedMail_reader_Error, hattach, exceptErr]

/-- Witness for C9 at concrete inputs. -/
theorem inline_ueof_skipped_other_read_errors_fatal_witness :
    (Mail.fetchBody sniff0 ext0 Mail.empty
        ⟨none, [.inlinePart (.bytes [1]), .inlinePart (.failure .unexpectedEOF)]⟩ =
      Mail.fetchBody sniff0 ext0 Mail.empty ⟨none, [.inlinePart (.bytes [1])]⟩) ∧
    ((Mail.fetchBody sniff0 ext0 Mail.empty
        ⟨none, [.inlinePart (.bytes [1]), .inlinePart (.failure (.other "boom"))]⟩).2 =
      some (.other "boom")) ∧
    ((Mail.fetchBody sniff0 ext0 Mail.empty
        ⟨none, [.inlinePart (.bytes [1]),
          .attachmentPart (.name "a.txt") (.failure .unexpectedEOF)]⟩).2 =
      some .unexpectedEOF) ∧
    ((processedMail sniff0 ext0
        ⟨7, ⟨"", "", [], ⟨2024, 1, 1⟩⟩, none,
          .reader ⟨none, [.inlinePart (.bytes [1]),
            .inlinePart (.failure (.other "boom"))]⟩⟩).Error =
      some (.other "boom")) ∧
    ((processedMail sniff0 ext0
        ⟨7, ⟨"", "", [], ⟨2024, 1, 1⟩⟩, none,
          .reader ⟨none, [.inlinePart (.bytes [1]),
            .attachmentPart (.name "a.txt") (.failure .unexpectedEOF)]⟩⟩).Error =
      some .unexpectedEOF) := by
  have h := inline_ueof_skipped_other_read_errors_fatal sniff0 ext0 Mail.empty none
    [.inlinePart (.bytes [1])] [] "boom" "a.txt" ⟨"", "", [], ⟨2024, 1, 1⟩⟩ 7 none
    (by decide)
  exact ⟨h.1, h.2.1, h.2.2.1, h.2.2.2.1, h.2.2.2.2⟩

-- Characterization of the part walk on well-formed part streams.

theorem all_goodEvent_okOrSkip (events : List PartEvent)
    (h : events.all goodEvent = true) : events.all okOrSkip = true := by
  induction events with
  | nil => rfl
  | cons ev tail ih =>
    rw [List.all_cons, Bool.and_eq_true] at h ⊢
    refine ⟨?_, ih h.2⟩
    cases ev with
    | nextPartFailure e => simp [goodEvent] at h
    | inlinePart r =>
      cases r with
      | bytes b => rfl
      | failure e => simp [goodEvent] at h
    | attachmentPart f r =>
      cases f with
      | failure e => simp [goodEvent] at h
      | name f =>
        cases r with
        | bytes b => rfl
        | failure e => simp [goodEvent] at h

theorem fetchBodyLoop_ok_of_okOrSkip (sniff sniffExt : List Nat → String) (uid : Nat)
    (events : List PartEvent) :
    events.all okOrSkip = true →
    ∀ c bodies atts,
      fetchBodyLoop sniff sniffExt uid events c bodies atts =
        .ok (bodies ++ inlineBodiesOf events,
          atts ++ attachSpecOf sniff sniffExt uid c (attachPairs events)) := by
  induction events with
  | nil =>
    intro _ c bodies atts
    simp [fetchBodyLoop, inlineBodiesOf, attachPairs, attachSpecOf]
  | cons ev tail ih =>
    intro hall c bodies atts
    rw [List.all_cons, Bool.and_eq_true] at hall
    obtain ⟨hev, htail⟩ := hall
    cases ev with
    | nextPartFailure e => simp [okOrSkip] at hev
    | inlinePart r =>
      cases r with
      | bytes b => simp [fetchBodyLoop, inlineBodiesOf, attachPairs, ih htail]
      | failure e =>
        cases e with
        | unexpectedEOF => simp [fetchBodyLoop, inlineBodiesOf, attachPairs, ih htail]
        | other m => simp [okOrSkip] at hev
    | attachmentPart f r =>
      cases f with
      | failure e => simp [okOrSkip] at hev
      | name f =>
        cases r with
        | failure e => simp [okOrSkip] at hev
        | bytes b =>
          by_cases hf : f = "" <;>
            simp [fetchBodyLoop, hf, counterNext, inlineBodiesOf, attachPairs,
              attachSpecOf, ih htail]

theorem inlineBodiesOf_length_of_good (events : List PartEvent)
    (h : events.all goodEvent = true) :
    (inlineBodiesOf events).length = (events.filter PartEvent.isInlinePart).length := by
  induction events with
  | nil => rfl
  | cons ev tail ih =>
    rw [List.all_cons, Bool.and_eq_true] at h
    cases ev with
    | nextPartFailure e => simp [goodEvent] at h
    | inlinePart r =>
      cases r with
      | bytes b => simp [inlineBodiesOf, List.filter_cons, PartEvent.isInlinePart, ih h.2]
      | failure e => simp [goodEvent] at h
    | attachmentPart f r =>
      cases f with
      | failure e => simp [goodEvent] at h
      | name f =>
        cases r with
        | bytes b => simp [inlineBodiesOf, List.filter_cons, PartEvent.isInlinePart, ih h.2]
        | failure e => simp [goodEvent] at h

theorem attachPairs_length_of_good (events : List PartEvent)
    (h : events.all goodEvent = true) :
    (attachPairs events).length = (events.filter PartEvent.isAttachmentPart).length := by
  induction events with
  | nil => rfl
  | cons ev tail ih =>
    rw [List.all_cons, Bool.and_eq_true] at h
    cases ev with
    | nextPartFailure e => simp [goodEvent] at h
    | inlinePart r =>
      cases r with
      | bytes b => simp [attachPairs, List.filter_cons, PartEvent.isAttachmentPart, ih h.2]
      | failure e => simp [goodEvent] at h
    | attachmentPart f r =>
      cases f with
      | failure e => simp [goodEvent] at h
      | name f =>
        cases r with
        | bytes b => simp [attachPairs, List.filter_cons, PartEvent.isAttachmentPart, ih h.2]
        | failure e => simp [goodEvent] at h

theorem attachSpecOf_length (sniff sniffExt : List Nat → String) (uid : Nat) :
    ∀ (pairs : List (String × List Nat)) (c : Nat),
      (attachSpecOf sniff sniffExt uid c pairs).length = pairs.length := by
  intro pairs
  induction pairs with
  | nil => intro c; rfl
  | cons p rest ih =>
    intro c
    obtain ⟨f, b⟩ := p
    by_cases hf : f = "" <;> simp [attachSpecOf, hf, ih]

theorem processedMail_reader_fields (sniff sniffExt : List Nat → String)
    (uid : Nat) (env : Envelope) (bs : Option (String × String)) (r : MailReader)
    (hok : r.parts.all okOrSkip = true) :
    (processedMail sniff sniffExt ⟨uid, env, bs, .reader r⟩).Error = none ∧
    (processedMail sniff sniffExt ⟨uid, env, bs, .reader r⟩).Body =
      inlineBodiesOf r.parts ∧
    (processedMail sniff sniffExt ⟨uid, env, bs, .reader r⟩).Attachments =
      attachSpecOf sniff sniffExt uid 0 (attachPairs r.parts) ∧
    (processedMail sniff sniffExt ⟨uid, env, bs, .reader r⟩).MultipartMimeType =
      (((inlineBodiesOf r.parts).filter (fun b => !b.isEmpty)).map sniff) ∧
    (processedMail sniff sniffExt ⟨uid, env, bs, .reader r⟩).AttachmentMimeType =
      (((attachSpecOf sniff sniffExt uid 0 (attachPairs r.parts)).filter
          (fun a => !a.Body.isEmpty)).map (fun a => sniff a.Body)) ∧
    (processedMail sniff sniffExt ⟨uid, env, bs, .reader r⟩).From = env.From := by
  have hloop := fetchBodyLoop_ok_of_okOrSkip sniff sniffExt uid r.parts hok 0 [] []
  obtain ⟨ct, parts⟩ := r
  cases bs <;> cases ct <;>
    simp [processedMail, processMessage, Mail.fetchBody, Mail.fetchMeta, Mail.empty,
      hloop]

/-- C5 counterexample: a message with one inline part (`k = 1`) whose read
ends in `io.ErrUnexpectedEOF` is parsed without error, yet the resulting
mail has `len(Body) = 0 ≠ 1 = k`, so the claim as stated fails on the code. -/
theorem parse_counts_counterexample :
    (msgUeofInline.body = .reader
      ⟨some "multipart/mixed", [.inlinePart (.failure .unexpectedEOF)]⟩) ∧
    (([PartEvent.inlinePart (.failure .unexpectedEOF)].filter
        PartEvent.isInlinePart).length = 1) ∧
    (processedMail sniff0 ext0 msgUeofInline).Error = none ∧
    (processedMail sniff0 ext0 msgUeofInline).Body.length = 0 := by
  refine ⟨rfl, rfl, ?_, ?_⟩ <;> decide

/-- C5 (amended): for every message whose body-section reader is obtained
and whose part walk reads all `k` inline parts and `m` attachment parts
without error and without an unexpected-EOF skip, the emitted mail satisfies
`len(Body) = k`, `len(Attachments) = m`, `len(MultipartMimeType) ≤ k`,
`len(AttachmentMimeType) ≤ m`, and the two label lists are exactly the
in-order sniffed types of the non-empty `Body` / `Attachments` entries
(index alignment).  Amendment forced by the counterexample: an inline part
skipped on `io.ErrUnexpectedEOF` produces no `Body` entry, so `k` counts the
parts actually read. -/
theorem parse_counts_and_label_alignment
    (sniff sniffExt : List Nat → String) (uid : Nat) (env : Envelope)
    (bs : Option (String × String)) (r : MailReader)
    (hgood : r.parts.all goodEvent = true) :
    (processedMail sniff sniffExt ⟨uid, env, bs, .reader r⟩).Error = none ∧
    (processedMail sniff sniffExt ⟨uid, env, bs, .reader r⟩).Body.length =
      (r.parts.filter PartEvent.isInlinePart).length ∧
    (processedMail sniff sniffExt ⟨uid, env, bs, .reader r⟩).Attachments.length =
      (r.parts.filter PartEvent.isAttachmentPart).length ∧
    (processedMail sniff sniffExt ⟨uid, env, bs, .reader r⟩).MultipartMimeType =
      (((processedMail sniff sniffExt ⟨uid, env, bs, .reader r⟩).Body.filter
          (fun b => !b.isEmpty)).map sniff) ∧
    (processedMail sniff sniffExt ⟨uid, env, bs, .reader r⟩).AttachmentMimeType =
      (((processedMail sniff sniffExt ⟨uid, env, bs, .reader r⟩).Attachments.filter
          (fun a => !a.Body.isEmpty)).map (fun a => sniff a.Body)) ∧
    (processedMail sniff sniffExt ⟨uid, env, bs, .reader r⟩).MultipartMimeType.length ≤
      (processedMail sniff sniffExt ⟨uid, env, bs, .reader r⟩).Body.length ∧
    (processedMail sniff sniffExt ⟨uid, env, bs, .reader r⟩).AttachmentMimeType.length ≤
      (processedMail sniff sniffExt ⟨uid, env, bs, .reader r⟩).Attachments.length := by
  obtain ⟨hErr, hBody, hAtt, hMul, hAttMime, _⟩ :=
    processedMail_reader_fields sniff sniffExt uid env bs r
      (all_goodEvent_okOrSkip r.parts hgood)
  refine ⟨hErr, ?_, ?_, ?_, ?_, ?_, ?_⟩
  · rw [hBody, inlineBodiesOf_length_of_good r.parts hgood]
  · rw [hAtt, attachSpecOf_length, attachPairs_length_of_good r.parts hgood]
  · rw [hMul, hBody]
  · rw [hAttMime, hAtt]
  · rw [hMul, hBody, List.length_map]
    exact List.length_filter_le _ _
  · rw [hAttMime, hAtt, List.length_map]
    exact List.length_filter_le _ _

/-- Witness for the amended C5 at a concrete message with one inline part
and one attachment part. -/
theorem parse_counts_and_label_alignment_witness :
    (processedMail sniff0 ext0 ⟨102, envSample, some ("multipart", "mixed"),
        .reader ⟨some "multipart/mixed",
          [.inlinePart (.bytes [104]),
            .attachmentPart (.name "a.txt") (.bytes [37, 80])]⟩⟩).Error = none ∧
    (processedMail sniff0 ext0 ⟨102, envSample, some ("multipart", "mixed"),
        .reader ⟨some "multipart/mixed",
          [.inlinePart (.bytes [104]),
            .attachmentPart (.name "a.txt") (.bytes [37, 80])]⟩⟩).Body.length =
      ([PartEvent.inlinePart (.bytes [104]),
        PartEvent.attachmentPart (.name "a.txt") (.bytes [37, 80])].filter
          PartEvent.isInlinePart).length ∧
    (processedMail sniff0 ext0 ⟨102, envSample, some ("multipart", "mixed"),
        .reader ⟨some "multipart/mixed",
          [.inlinePart (.bytes [104]),
            .attachmentPart (.name "a.txt") (.bytes [37, 80])]⟩⟩).Attachments.length =
      ([PartEvent.inlinePart (.bytes [104]),
        PartEvent.attachmentPart (.name "a.txt") (.bytes [37, 80])].filter
          PartEvent.isAttachmentPart).length := by
  have h := parse_counts_and_label_alignment sniff0 ext0 102 envSample
    (some ("multipart", "mixed"))
    ⟨some "multipart/mixed",
      [.inlinePart (.bytes [104]),
        .attachmentPart (.name "a.txt") (.bytes [37, 80])]⟩
    (by decide)
  exact ⟨h.1, h.2.1, h.2.2.1⟩

-- Sanitization lemmas.

theorem replaceSlashes_no_slash (s : String) : '/' ∉ (replaceSlashes s).data := by
  simp only [replaceSlashes, String.data, List.mem_map, not_exists]
  intro a
  by_cases h1 : a = '/' <;> simp [h1]

theorem sanitizeName_no_slash (s : String) : '/' ∉ (sanitizeName s).data :=
  replaceSlashes_no_slash (fixUtf s)

theorem fixUtf_eq_self (s : String) (h : runeErrorChar ∉ s.data) : fixUtf s = s := by
  obtain ⟨l⟩ := s
  simp only [fixUtf]
  congr 1
  apply List.filter_eq_self.mpr
  intro a ha
  simp only [decide_eq_true_eq, ne_eq]
  intro hcontra
  exact h (by simpa [hcontra] using ha)

theorem replaceSlashes_eq_self (s : String) (h : '/' ∉ s.data) : replaceSlashes s = s := by
  obtain ⟨l⟩ := s
  simp only [replaceSlashes]
  congr 1
  have : ∀ a ∈ l, (if a = '/' then '-' else a) = a := by
    intro a ha
    rw [if_neg]
    intro hcontra
    exact h (by simpa [hcontra] using ha)
  rw [List.map_congr_left this]
  exact List.map_id l

theorem sanitizeName_eq_self (s : String) (h1 : '/' ∉ s.data)
    (h2 : runeErrorChar ∉ s.data) : sanitizeName s = s := by
  rw [sanitizeName, fixUtf_eq_self s h2, replaceSlashes_eq_self s h1]

theorem decDigit_clean (d : Nat) : decDigit d ≠ '/' ∧ decDigit d ≠ runeErrorChar := by
  have h : d % 10 < 10 := Nat.mod_lt _ (by norm_num)
  unfold decDigit
  set m := d % 10 with hm
  interval_cases m <;> exact ⟨by decide, by decide⟩

theorem natDigitsGo_clean (fuel : Nat) :
    ∀ (n : Nat) (acc : List Char), '/' ∉ acc → runeErrorChar ∉ acc →
      '/' ∉ natDigitsGo fuel n acc ∧ runeErrorChar ∉ natDigitsGo fuel n acc := by
  induction fuel with
  | zero =>
    intro n acc h1 h2
    constructor
    · intro hc
      rcases List.mem_cons.mp hc with hc | hc
      · exact (decDigit_clean n).1 hc.symm
      · exact h1 hc
    · intro hc
      rcases List.mem_cons.mp hc with hc | hc
      · exact (decDigit_clean n).2 hc.symm
      · exact h2 hc
  | succ fuel ih =>
    intro n acc h1 h2
    rw [natDigitsGo]
    by_cases h : n < 10
    · simp only [h, if_pos]
      constructor
      · intro hc
        rcases List.mem_cons.mp hc with hc | hc
        · exact (decDigit_clean n).1 hc.symm
        · exact h1 hc
      · intro hc
        rcases List.mem_cons.mp hc with hc | hc
        · exact (decDigit_clean n).2 hc.symm
        · exact h2 hc
    · simp only [h, if_neg, not_false_iff]
      refine ih (n / 10) _ ?_ ?_
      · intro hc
        rcases List.mem_cons.mp hc with hc | hc
        · exact (decDigit_clean (n % 10)).1 hc.symm
        · exact h1 hc
      · intro hc
        rcases List.mem_cons.mp hc with hc | hc
        · exact (decDigit_clean (n % 10)).2 hc.symm
        · exact h2 hc

theorem natToString_clean (n : Nat) :
    '/' ∉ (natToString n).data ∧ runeErrorChar ∉ (natToString n).data := by
  simpa [natToString] using natDigitsGo_clean n n [] (by simp) (by simp)

theorem synthName_clean (uid ord : Nat) (ext : String)
    (h1 : '/' ∉ ext.data) (h2 : runeErrorChar ∉ ext.data) :
    '/' ∉ (synthName uid ord ext).data ∧
      runeErrorChar ∉ (synthName uid ord ext).data := by
  have hu := natToString_clean uid
  have ho := natToString_clean ord
  constructor
  · intro hc
    simp only [synthName, String.data_append, List.mem_append] at hc
    rcases hc with ((hc | hc) | hc) | hc
    · exact hu.1 hc
    · revert hc; decide
    · exact ho.1 hc
    · exact h1 hc
  · intro hc
    simp only [synthName, String.data_append, List.mem_append] at hc
    rcases hc with ((hc | hc) | hc) | hc
    · exact hu.2 hc
    · revert hc; decide
    · exact ho.2 hc
    · exact h2 hc

-- Indexed characterization of the attachments the walk produces.

theorem unnamedBefore_zero (pairs : List (String × List Nat)) :
    unnamedBefore pairs 0 = 0 := by
  simp [unnamedBefore]

theorem unnamedBefore_cons_succ (p : String × List Nat)
    (rest : List (String × List Nat)) (j : Nat) :
    unnamedBefore (p :: rest) (j + 1) =
      (if p.1 = "" then 1 else 0) + unnamedBefore rest j := by
  by_cases hp : p.1 = ""
  · simp [unnamedBefore, List.filter_cons, hp, Nat.add_comm]
  · simp [unnamedBefore, List.filter_cons, hp]

theorem attachSpecOf_get (sniff sniffExt : List Nat → String) (uid : Nat) :
    ∀ (pairs : List (String × List Nat)) (c j : Nat) (f : String) (b : List Nat),
      pairs[j]? = some (f, b) →
      (attachSpecOf sniff sniffExt uid c pairs)[j]? =
        some (if f = "" then
          ⟨sanitizeName (synthName uid (c + unnamedBefore pairs j + 1) (sniffExt b)),
            b, sniff b⟩
        else ⟨sanitizeName f, b, sniff b⟩) := by
  intro pairs
  induction pairs with
  | nil => intro c j f b h; simp at h
  | cons p rest ih =>
    intro c j f b h
    obtain ⟨fp, bp⟩ := p
    cases j with
    | zero =>
      simp only [List.getElem?_cons_zero, Option.some.injEq, Prod.mk.injEq] at h
      obtain ⟨hf, hb⟩ := h
      rw [← hf, ← hb]
      by_cases hf0 : fp = ""
      · simp [attachSpecOf, hf0, unnamedBefore_zero]
      · simp [attachSpecOf, hf0]
    | succ j =>
      simp only [List.getElem?_cons_succ] at h
      by_cases hf0 : fp = ""
      · subst hf0
        have hord : c + unnamedBefore (("", bp) :: rest) (j + 1) + 1 =
            c + 1 + unnamedBefore rest j + 1 := by
          rw [unnamedBefore_cons_succ]
          simp only [if_pos]
          omega
        simp only [attachSpecOf, if_pos, List.getElem?_cons_succ]
        rw [ih (c + 1) j f b h, hord]
      · have hord : c + unnamedBefore ((fp, bp) :: rest) (j + 1) + 1 =
            c + unnamedBefore rest j + 1 := by
          rw [unnamedBefore_cons_succ]
          simp only [hf0, if_neg, not_false_iff]
          omega
        simp only [attachSpecOf, hf0, if_neg, not_false_iff, List.getElem?_cons_succ]
        rw [ih c j f b h, hord]

theorem unnamedBefore_le_succ (pairs : List (String × List Nat)) :
    ∀ (j : Nat), unnamedBefore pairs j ≤ unnamedBefore pairs (j + 1) := by
  induction pairs with
  | nil => intro j; simp [unnamedBefore]
  | cons p rest ih =>
    intro j
    cases j with
    | zero => rw [unnamedBefore_zero]; exact Nat.zero_le _
    | succ j =>
      rw [unnamedBefore_cons_succ, unnamedBefore_cons_succ]
      exact Nat.add_le_add_left (ih j) _

theorem unnamedBefore_mono (pairs : List (String × List Nat)) (j k : Nat)
    (h : j ≤ k) : unnamedBefore pairs j ≤ unnamedBefore pairs k := by
  induction h with
  | refl => exact Nat.le_refl _
  | step h2 ih => exact Nat.le_trans ih (unnamedBefore_le_succ pairs _)

theorem unnamedBefore_step (pairs : List (String × List Nat)) (j : Nat)
    (b : List Nat) (h : pairs[j]? = some ("", b)) :
    unnamedBefore pairs (j + 1) = unnamedBefore pairs j + 1 := by
  induction pairs generalizing j with
  | nil => simp at h
  | cons p rest ih =>
    cases j with
    | zero =>
      simp only [List.getElem?_cons_zero, Option.some.injEq] at h
      subst h
      rw [unnamedBefore_cons_succ, unnamedBefore_zero, unnamedBefore_zero]
      simp
    | succ j =>
      simp only [List.getElem?_cons_succ] at h
      rw [unnamedBefore_cons_succ, unnamedBefore_cons_succ, ih j h]
      omega

theorem attachSpecOf_no_slash (sniff sniffExt : List Nat → String) (uid : Nat) :
    ∀ (pairs : List (String × List Nat)) (c : Nat) (a : Attachment),
      a ∈ attachSpecOf sniff sniffExt uid c pairs → '/' ∉ a.Filename.data := by
  intro pairs
  induction pairs with
  | nil => intro c a ha; simp [attachSpecOf] at ha
  | cons p rest ih =>
    intro c a ha
    obtain ⟨f, b⟩ := p
    by_cases hf : f = ""
    · simp only [attachSpecOf, hf, if_pos, List.mem_cons] at ha
      rcases ha with ha | ha
      · rw [ha]
        exact sanitizeName_no_slash _
      · exact ih _ _ ha
    · simp only [attachSpecOf, hf, if_neg, not_false_iff, List.mem_cons] at ha
      rcases ha with ha | ha
      · rw [ha]
        exact sanitizeName_no_slash _
      · exact ih _ _ ha

theorem fetchBodyLoop_ok_all_okOrSkip (sniff sniffExt : List Nat → String) (uid : Nat) :
    ∀ (events : List PartEvent) (c : Nat) (bodies : List (List Nat))
      (atts : List Attachment) (res : List (List Nat) × List Attachment),
      fetchBodyLoop sniff sniffExt uid events c bodies atts = .ok res →
      events.all okOrSkip = true := by
  intro events
  induction events with
  | nil => intro _ _ _ _ _; rfl
  | cons ev tail ih =>
    intro c bodies atts res h
    rw [List.all_cons, Bool.and_eq_true]
    cases ev with
    | nextPartFailure e => simp [fetchBodyLoop] at h
    | inlinePart r =>
      cases r with
      | bytes b => exact ⟨rfl, ih _ _ _ _ (by simpa [fetchBodyLoop] using h)⟩
      | failure e =>
        cases e with
        | unexpectedEOF => exact ⟨rfl, ih _ _ _ _ (by simpa [fetchBodyLoop] using h)⟩
        | other m => simp [fetchBodyLoop] at h
    | attachmentPart f r =>
      cases f with
      | failure e => simp [fetchBodyLoop] at h
      | name f =>
        cases r with
        | failure e => simp [fetchBodyLoop] at h
        | bytes b =>
          by_cases hf : f = ""
          · exact ⟨rfl, ih _ _ _ _ (by simpa [fetchBodyLoop, hf, counterNext] using h)⟩
          · exact ⟨rfl, ih _ _ _ _ (by simpa [fetchBodyLoop, hf] using h)⟩

theorem processedMail_attachments_no_slash (sniff sniffExt : List Nat → String)
    (msg : Message) :
    ∀ a ∈ (processedMail sniff sniffExt msg).Attachments, '/' ∉ a.Filename.data := by
  obtain ⟨uid, env, bs, body⟩ := msg
  cases body with
  | noReader => simp [processedMail, processMessage, Mail.empty]
  | createReaderError e =>
    cases bs <;> simp [processedMail, processMessage, Mail.fetchMeta, Mail.empty]
  | reader r =>
    obtain ⟨ct, parts⟩ := r
    cases hloop : fetchBodyLoop sniff sniffExt uid parts 0 [] [] with
    | error e =>
      cases bs <;> cases ct <;>
        simp [processedMail, processMessage, Mail.fetchBody, Mail.fetchMeta,
          Mail.empty, hloop]
    | ok res =>
      have hall : parts.all okOrSkip = true :=
        fetchBodyLoop_ok_all_okOrSkip sniff sniffExt uid parts 0 [] [] res hloop
      have hfields := processedMail_reader_fields sniff sniffExt uid env bs
        ⟨ct, parts⟩ hall
      rw [hfields.2.2.1]
      intro a ha
      exact attachSpecOf_no_slash sniff sniffExt uid _ _ a ha

/-- C6: every attachment stored by the part walk has a `Filename` containing
no path-separator character; when the part declared an empty filename, the
stored name is the synthesized `<identifier>-<ordinal><sniffed-extension>`
(whenever the sniffed extension itself carries no slash and no invalid
rune, this is the literal stored string), with the ordinal equal to one
plus the number of unnamed attachment parts before it — hence per-message
and strictly increasing over the unnamed attachments encountered — and the
extension drawn from the same sniffed content type stored as the
attachment's `Mimetype`. -/
theorem attachment_filename_sanitization
    (sniff sniffExt : List Nat → String) (msg : Message)
    (uid : Nat) (env : Envelope) (bs : Option (String × String)) (r : MailReader)
    (j j1 j2 : Nat) (b b1 b2 : List Nat)
    (hgood : r.parts.all goodEvent = true)
    (hj : (attachPairs r.parts)[j]? = some ("", b))
    (hext1 : '/' ∉ (sniffExt b).data)
    (hext2 : runeErrorChar ∉ (sniffExt b).data)
    (hj1 : (attachPairs r.parts)[j1]? = some ("", b1))
    (hj2 : (attachPairs r.parts)[j2]? = some ("", b2))
    (hlt : j1 < j2) :
    (∀ a ∈ (processedMail sniff sniffExt msg).Attachments, '/' ∉ a.Filename.data) ∧
    (processedMail sniff sniffExt ⟨uid, env, bs, .reader r⟩).Attachments[j]? =
      some ⟨synthName uid (unnamedBefore (attachPairs r.parts) j + 1) (sniffExt b),
        b, sniff b⟩ ∧
    unnamedBefore (attachPairs r.parts) j1 + 1 <
      unnamedBefore (attachPairs r.parts) j2 + 1 := by
  have hall := all_goodEvent_okOrSkip r.parts hgood
  have hAtt := (processedMail_reader_fields sniff sniffExt uid env bs r hall).2.2.1
  refine ⟨processedMail_attachments_no_slash sniff sniffExt msg, ?_, ?_⟩
  · rw [hAtt, attachSpecOf_get sniff sniffExt uid (attachPairs r.parts) 0 j "" b hj]
    have hclean := synthName_clean uid (unnamedBefore (attachPairs r.parts) j + 1)
      (sniffExt b) hext1 hext2
    rw [if_pos rfl, Nat.zero_add, sanitizeName_eq_self _ hclean.1 hclean.2]
  · have hstep := unnamedBefore_step (attachPairs r.parts) j1 b1 hj1
    have hmono := unnamedBefore_mono (attachPairs r.parts) (j1 + 1) j2 hlt
    omega

/-- Witness for C6: a message with two unnamed attachments around a named
one containing a slash. -/
theorem attachment_filename_sanitization_witness :
    (∀ a ∈ (processedMail sniff0 ext0 ⟨77, envSample, none,
        .reader ⟨some "multipart/mixed",
          [.attachmentPart (.name "") (.bytes [1]),
            .attachmentPart (.name "x/y.txt") (.bytes [2]),
            .attachmentPart (.name "") (.bytes [3])]⟩⟩).Attachments,
      '/' ∉ a.Filename.data) ∧
    (processedMail sniff0 ext0 ⟨77, envSample, none,
        .reader ⟨some "multipart/mixed",
          [.attachmentPart (.name "") (.bytes [1]),
            .attachmentPart (.name "x/y.txt") (.bytes [2]),
            .attachmentPart (.name "") (.bytes [3])]⟩⟩).Attachments[0]? =
      some ⟨synthName 77 (unnamedBefore (attachPairs
          [.attachmentPart (.name "") (.bytes [1]),
            .attachmentPart (.name "x/y.txt") (.bytes [2]),
            .attachmentPart (.name "") (.bytes [3])]) 0 + 1) (ext0 [1]),
        [1], sniff0 [1]⟩ ∧
    unnamedBefore (attachPairs
        [.attachmentPart (.name "") (.bytes [1]),
          .attachmentPart (.name "x/y.txt") (.bytes [2]),
          .attachmentPart (.name "") (.bytes [3])]) 0 + 1 <
      unnamedBefore (attachPairs
        [.attachmentPart (.name "") (.bytes [1]),
          .attachmentPart (.name "x/y.txt") (.bytes [2]),
          .attachmentPart (.name "") (.bytes [3])]) 2 + 1 := by
  have h := attachment_filename_sanitization sniff0 ext0
    ⟨77, envSample, none,
      .reader ⟨some "multipart/mixed",
        [.attachmentPart (.name "") (.bytes [1]),
          .attachmentPart (.name "x/y.txt") (.bytes [2]),
          .attachmentPart (.name "") (.bytes [3])]⟩⟩
    77 envSample none
    ⟨some "multipart/mixed",
      [.attachmentPart (.name "") (.bytes [1]),
        .attachmentPart (.name "x/y.txt") (.bytes [2]),
        .attachmentPart (.name "") (.bytes [3])]⟩
    0 0 2 [1] [1] [3]
    (by decide) (by decide) (by decide) (by decide) (by decide) (by decide)
    (by decide)
  exact ⟨h.1, h.2.1, h.2.2⟩

-- Pipeline lemmas.

theorem processMessage_ok (sniff sniffExt : List Nat → String) (msg : Message)
    (h : msg.body ≠ .noReader) :
    processMessage sniff sniffExt msg = .ok (processedMail sniff sniffExt msg) := by
  obtain ⟨uid, env, bs, body⟩ := msg
  cases body with
  | noReader => exact absurd rfl h
  | createReaderError e => rfl
  | reader r => rfl

theorem processedMail_createReaderError (sniff sniffExt : List Nat → String)
    (uid : Nat) (env : Envelope) (bs : Option (String × String)) (e : Err) :
    (processedMail sniff sniffExt ⟨uid, env, bs, .createReaderError e⟩).Error =
      some e := by
  cases bs <;> simp [processedMail, processMessage, Mail.fetchMeta, Mail.empty]

theorem fetchMessages_ok_map (sniff sniffExt : List Nat → String)
    (msgs : List Message) (h : ∀ m ∈ msgs, m.body ≠ .noReader) :
    fetchMessages sniff sniffExt msgs =
      (msgs.map (processedMail sniff sniffExt), none) := by
  induction msgs with
  | nil => rfl
  | cons msg rest ih =>
    have h1 := processMessage_ok sniff sniffExt msg (h msg (by simp))
    simp [fetchMessages, h1, ih (fun m hm => h m (by simp [hm]))]

theorem processedMail_From (sniff sniffExt : List Nat → String) (msg : Message)
    (h : msg.body ≠ .noReader) :
    (processedMail sniff sniffExt msg).From = msg.Envelope.From := by
  obtain ⟨uid, env, bs, body⟩ := msg
  cases body with
  | noReader => exact absurd rfl h
  | createReaderError e =>
    cases bs <;> simp [processedMail, processMessage, Mail.fetchMeta, Mail.empty]
  | reader r =>
    obtain ⟨ct, parts⟩ := r
    cases hloop : fetchBodyLoop sniff sniffExt uid parts 0 [] [] with
    | error e =>
      cases bs <;> cases ct <;>
        simp [processedMail, processMessage, Mail.fetchBody, Mail.fetchMeta,
          Mail.empty, hloop]
    | ok res =>
      cases bs <;> cases ct <;>
        simp [processedMail, processMessage, Mail.fetchBody, Mail.fetchMeta,
          Mail.empty, hloop]

/-- C1 counterexample: for a fetched message whose body-section reader is
nil, `fetchMessages` returns the error `"no reader"`: no error-carrying Mail
is emitted for that message, the remaining message produces nothing, and the
producer hits `log.Fatal`, so the channel is never closed — the stream for
the remaining identifiers is aborted, contradicting the claim as stated. -/
theorem noReader_aborts_stream_counterexample :
    (runPipeline sniff0 ext0 [msgNoReader, msgPlain]).emitted = [] ∧
    (runPipeline sniff0 ext0 [msgNoReader, msgPlain]).closeCount = 0 ∧
    (runPipeline sniff0 ext0 [msgNoReader, msgPlain]).fatal = true ∧
    (fetchMessages sniff0 ext0 [msgNoReader, msgPlain]).2 =
      some (.other "no reader") := by
  refine ⟨?_, ?_, ?_, ?_⟩ <;> decide

/-- C1 (amended): a per-message parse failure — `CreateReader` failing for
one fetched message — is recorded as a Mail with non-nil `Error`, excluded
from the Metadata Index and from all handler invocations, and never aborts
the stream: provided every message's body-section reader is obtained (nil
readers, by the counterexample, abort the whole stream instead), the
pipeline emits one Mail per message and finishes without error. -/
theorem parse_error_isolated_per_message
    (sniff sniffExt : List Nat → String) (msgs : List Message)
    (h : ∀ m ∈ msgs, m.body ≠ .noReader)
    (j : Nat) (mj : Message) (e : Err)
    (hj : msgs[j]? = some mj) (hje : mj.body = .createReaderError e) :
    (fetchMessages sniff sniffExt msgs).2 = none ∧
    (fetchMessages sniff sniffExt msgs).1.length = msgs.length ∧
    ((fetchMessages sniff sniffExt msgs).1[j]?).map (fun m => m.Error) =
      some (some e) ∧
    (∀ m ∈ indexedMails (fetchMessages sniff sniffExt msgs).1, m.Error = none) ∧
    (∀ m ∈ handledMails (fetchMessages sniff sniffExt msgs).1, m.Error = none) := by
  rw [fetchMessages_ok_map sniff sniffExt msgs h]
  refine ⟨rfl, by simp, ?_, ?_, ?_⟩
  · obtain ⟨uj, envj, bsj, bodyj⟩ := mj
    simp only at hje
    subst hje
    simp [List.getElem?_map, hj, processedMail_createReaderError]
  · intro m hm
    have := (List.mem_filter.mp hm).2
    simpa [Option.isNone_iff_eq_none] using this
  · intro m hm
    have := (List.mem_filter.mp hm).2
    simpa [Option.isNone_iff_eq_none] using this

/-- Witness for the amended C1. -/
theorem parse_error_isolated_per_message_witness :
    (fetchMessages sniff0 ext0
      [msgPlain, ⟨105, envSample, none, .createReaderError (.other "parse")⟩]).2 =
        none ∧
    (fetchMessages sniff0 ext0
      [msgPlain, ⟨105, envSample, none, .createReaderError (.other "parse")⟩]).1.length
        = 2 ∧
    ((fetchMessages sniff0 ext0
      [msgPlain, ⟨105, envSample, none,
        .createReaderError (.other "parse")⟩]).1[1]?).map (fun m => m.Error) =
      some (some (.other "parse")) := by
  have h := parse_error_isolated_per_message sniff0 ext0
    [msgPlain, ⟨105, envSample, none, .createReaderError (.other "parse")⟩]
    (by intro m hm; fin_cases hm <;> simp [msgPlain])
    1 ⟨105, envSample, none, .createReaderError (.other "parse")⟩ (.other "parse")
    (by decide) rfl
  exact ⟨h.1, h.2.1, h.2.2.1⟩

/-- C2 counterexample: with two requested identifiers of which the second
has a nil body-section reader, the pipeline emits one Mail instead of two
and never closes the channel, contradicting the claim as stated. -/
theorem emits_n_and_closes_counterexample :
    (runPipeline sniff0 ext0 [msgPlain, msgNoReader]).emitted.length = 1 ∧
    (runPipeline sniff0 ext0 [msgPlain, msgNoReader]).closeCount = 0 ∧
    (runPipeline sniff0 ext0 [msgPlain, msgNoReader]).fatal = true := by
  refine ⟨?_, ?_, ?_⟩ <;> decide

/-- C2 (amended): provided every fetched message yields a body-section
reader, the fetch pipeline emits exactly one Mail per message — success or
error-carrying, in delivery order — and then closes the channel exactly
once; a nil reader instead (see the counterexample) aborts the stream
without closing. -/
theorem pipeline_emits_one_mail_per_message
    (sniff sniffExt : List Nat → String) (msgs : List Message)
    (h : ∀ m ∈ msgs, m.body ≠ .noReader) :
    (runPipeline sniff sniffExt msgs).emitted.length = msgs.length ∧
    (runPipeline sniff sniffExt msgs).closeCount = 1 ∧
    (runPipeline sniff sniffExt msgs).fatal = false ∧
    (runPipeline sniff sniffExt msgs).emitted =
      msgs.map (processedMail sniff sniffExt) := by
  have hmap := fetchMessages_ok_map sniff sniffExt msgs h
  simp [runPipeline, hmap]

/-- Witness for the amended C2. -/
theorem pipeline_emits_one_mail_per_message_witness :
    (runPipeline sniff0 ext0 [msgPlain, msgUeofInline]).emitted.length = 2 ∧
    (runPipeline sniff0 ext0 [msgPlain, msgUeofInline]).closeCount = 1 ∧
    (runPipeline sniff0 ext0 [msgPlain, msgUeofInline]).fatal = false := by
  have h := pipeline_emits_one_mail_per_message sniff0 ext0 [msgPlain, msgUeofInline]
    (by intro m hm; fin_cases hm <;> simp [msgPlain, msgUeofInline])
  exact ⟨h.1, h.2.1, h.2.2.1⟩

/-- C7 counterexample: a message with an empty envelope `From` list parses
without error, so the emitted Mail has `Error` unset and an empty `From`
list, and the `From[0]` access in `getDirectoryName` is out of bounds —
the claimed invariant fails on the code. -/
theorem from_nonempty_counterexample :
    (processedMail sniff0 ext0 msgEmptyFrom).Error = none ∧
    (processedMail sniff0 ext0 msgEmptyFrom).From = [] ∧
    (processedMail sniff0 ext0 msgEmptyFrom).getDirectoryName "mail" "user" =
      none := by
  refine ⟨?_, ?_, ?_⟩ <;> decide

/-- C7 (amended): the parser copies the envelope's `From` list unchanged, so
for every fetched message whose envelope `From` list is non-empty the
resulting Mail — `Error` set or not — has a non-empty `From` and the
`From[0]` access in `getDirectoryName` is in bounds.  The unamended claim
fails because nothing in the code establishes non-emptiness when the
envelope itself has no `From` address (see the counterexample). -/
theorem from_nonempty_when_envelope_from_nonempty
    (sniff sniffExt : List Nat → String) (msg : Message) (root username : String)
    (hbody : msg.body ≠ .noReader) (hfrom : msg.Envelope.From ≠ []) :
    (processedMail sniff sniffExt msg).From = msg.Envelope.From ∧
    (processedMail sniff sniffExt msg).From ≠ [] ∧
    ∃ d, (processedMail sniff sniffExt msg).getDirectoryName root username =
      some d := by
  have hFrom := processedMail_From sniff sniffExt msg hbody
  refine ⟨hFrom, by rw [hFrom]; exact hfrom, ?_⟩
  rw [Mail.getDirectoryName]
  cases he : (processedMail sniff sniffExt msg).From with
  | nil => exact absurd (by rw [← hFrom, he]) hfrom
  | cons a rest => exact ⟨_, rfl⟩

/-- Witness for the amended C7. -/
theorem from_nonempty_when_envelope_from_nonempty_witness :
    (processedMail sniff0 ext0 msgPlain).From = envSample.From ∧
    (processedMail sniff0 ext0 msgPlain).From ≠ [] ∧
    ∃ d, (processedMail sniff0 ext0 msgPlain).getDirectoryName "mail" "user" =
      some d := by
  have h := from_nonempty_when_envelope_from_nonempty sniff0 ext0 msgPlain
    "mail" "user" (by decide) (by decide)
  exact h

-- Text handler lemmas.

theorem multipartWrites_eq_filterMap (sniff : List Nat → String) (dir base : String)
    (bodies : List (List Nat)) :
    multipartWrites sniff dir base bodies =
      bodies.filterMap (fun b =>
        if mimeType (sniff b) = "text/plain" then
          some (dir ++ "/" ++ base ++ ".txt", b)
        else if mimeType (sniff b) = "text/html" then
          some (dir ++ "/" ++ base ++ ".html", b)
        else none) := by
  induction bodies with
  | nil => rfl
  | cons b rest ih =>
    by_cases h1 : mimeType (sniff b) = "text/plain"
    · simp [multipartWrites, List.filterMap_cons, h1, ih]
    · by_cases h2 : mimeType (sniff b) = "text/html"
      · simp [multipartWrites, List.filterMap_cons, h1, h2, ih]
      · simp [multipartWrites, List.filterMap_cons, h1, h2, ih]

theorem multipartWrites_names (sniff : List Nat → String) (dir base : String)
    (bodies : List (List Nat)) :
    ∀ w ∈ multipartWrites sniff dir base bodies,
      w.1 = dir ++ "/" ++ base ++ ".txt" ∨ w.1 = dir ++ "/" ++ base ++ ".html" := by
  intro w hw
  rw [multipartWrites_eq_filterMap, List.mem_filterMap] at hw
  obtain ⟨b, _, hb⟩ := hw
  by_cases h1 : mimeType (sniff b) = "text/plain"
  · rw [if_pos h1] at hb
    injection hb with hb
    left
    rw [← hb]
  · rw [if_neg h1] at hb
    by_cases h2 : mimeType (sniff b) = "text/html"
    · rw [if_pos h2] at hb
      injection hb with hb
      right
      rw [← hb]
    · rw [if_neg h2] at hb
      exact absurd hb (by simp)

theorem txt_ne_html (p : String) : p ++ ".txt" ≠ p ++ ".html" := by
  intro h
  have h2 := congrArg String.length h
  rw [String.length_append, String.length_append] at h2
  have h3 : (".txt" : String).length = 4 := rfl
  have h4 : (".html" : String).length = 5 := rfl
  omega

theorem applyWrites_multipart_last (sniff : List Nat → String) (dir base : String)
    (bodies : List (List Nat)) (tgt : String)
    (htgt : tgt = dir ++ "/" ++ base ++ ".txt" ∨ tgt = dir ++ "/" ++ base ++ ".html")
    (p : List Nat → Bool)
    (hp : ∀ b, p b = true ↔
      (tgt = dir ++ "/" ++ base ++ ".txt" ∧ mimeType (sniff b) = "text/plain") ∨
      (tgt = dir ++ "/" ++ base ++ ".html" ∧ mimeType (sniff b) = "text/html")) :
    ∀ fs : ByteFS,
      applyWrites fs (multipartWrites sniff dir base bodies) tgt =
        bodies.foldl (fun acc b => if p b then some b else acc) (fs tgt) := by
  induction bodies with
  | nil => intro fs; rfl
  | cons b rest ih =>
    intro fs
    by_cases h1 : mimeType (sniff b) = "text/plain"
    · rcases htgt with ht | ht
      · have hpb : p b = true := (hp b).mpr (Or.inl ⟨ht, h1⟩)
        simp only [multipartWrites, h1, if_pos, applyWrites, List.foldl_cons, hpb]
        rw [ih (writeByteFS fs (dir ++ "/" ++ base ++ ".txt") b)]
        rw [← ht]
        simp [writeByteFS]
      · have hpb : p b = false := by
          rw [Bool.eq_false_iff]
          intro hc
          rcases (hp b).mp hc with ⟨h3, _⟩ | ⟨_, h4⟩
          · have := h3.symm.trans ht
            exact txt_ne_html (dir ++ "/" ++ base) this
          · rw [h1] at h4
            exact absurd h4 (by decide)
        simp only [multipartWrites, h1, if_pos, applyWrites, List.foldl_cons, hpb]
        rw [ih (writeByteFS fs (dir ++ "/" ++ base ++ ".txt") b)]
        have : writeByteFS fs (dir ++ "/" ++ base ++ ".txt") b tgt = fs tgt := by
          rw [writeByteFS, if_neg]
          rw [ht]
          intro hc
          exact txt_ne_html (dir ++ "/" ++ base) hc.symm
        rw [this]
        simp
    · by_cases h2 : mimeType (sniff b) = "text/html"
      · rcases htgt with ht | ht
        · have hpb : p b = false := by
            rw [Bool.eq_false_iff]
            intro hc
            rcases (hp b).mp hc with ⟨_, h3⟩ | ⟨h4, _⟩
            · exact h1 h3
            · have := ht.symm.trans h4
              exact txt_ne_html (dir ++ "/" ++ base) this
          simp only [multipartWrites, h1, h2, if_neg, not_false_iff, if_pos,
            applyWrites, List.foldl_cons, hpb]
          rw [ih (writeByteFS fs (dir ++ "/" ++ base ++ ".html") b)]
          have : writeByteFS fs (dir ++ "/" ++ base ++ ".html") b tgt = fs tgt := by
            rw [writeByteFS, if_neg]
            rw [ht]
            intro hc
            exact txt_ne_html (dir ++ "/" ++ base) hc
          rw [this]
          simp
        · have hpb : p b = true := (hp b).mpr (Or.inr ⟨ht, h2⟩)
          simp only [multipartWrites, h1, h2, if_neg, not_false_iff, if_pos,
            applyWrites, List.foldl_cons, hpb]
          rw [ih (writeByteFS fs (dir ++ "/" ++ base ++ ".html") b)]
          rw [← ht]
          simp [writeByteFS]
      · have hpb : p b = false := by
          rw [Bool.eq_false_iff]
          intro hc
          rcases (hp b).mp hc with ⟨_, h3⟩ | ⟨_, h4⟩
          · exact h1 h3
          · exact h2 h4
        simp only [multipartWrites, h1, h2, if_neg, not_false_iff, List.foldl_cons,
          hpb]
        rw [ih fs]
        simp

theorem getLast?_cons_eq {α : Type} (a : α) (l : List α) :
    (a :: l).getLast? = match l.getLast? with
      | some y => some y
      | none => some a := by
  induction l generalizing a with
  | nil => rfl
  | cons b l ih =>
    rw [List.getLast?_cons_cons]
    cases hb : (b :: l).getLast? with
    | none =>
      rw [ih b] at hb
      cases hl : l.getLast? with
      | none => rw [hl] at hb; exact absurd hb (by simp)
      | some y => rw [hl] at hb; exact absurd hb (by simp)
    | some y => rfl

theorem foldl_lastFilter {α : Type} (p : α → Bool) (l : List α) :
    ∀ init : Option α,
      l.foldl (fun acc b => if p b then some b else acc) init =
        match (l.filter p).getLast? with
        | some y => some y
        | none => init := by
  induction l with
  | nil => intro init; rfl
  | cons b l ih =>
    intro init
    by_cases hb : p b = true
    · rw [List.foldl_cons, if_pos hb, List.filter_cons, if_pos hb, ih (some b),
        getLast?_cons_eq]
      cases (l.filter p).getLast? <;> rfl
    · rw [List.foldl_cons, if_neg hb, List.filter_cons, if_neg hb, ih init]

/-- C8 counterexample: `multipart/related` is a multipart top-level type,
yet the handler's switch has no case for it — a successfully parsed mail
with declared type `multipart/related` whose sole inline body sniffs as
`text/plain` produces no writes at all, so the claim's "every multipart
top-level type" fails on the code. -/
theorem text_handler_related_noop_counterexample :
    mimeType mailRelated.MimeType = "multipart/related" ∧
    mimeType (sniff0 [104, 105]) = "text/plain" ∧
    mailRelated.Body = [[104, 105]] ∧
    TextHandler.Handle sniff0 ⟨"user"⟩ mailRelated = some [] := by
  refine ⟨?_, ?_, ?_, ?_⟩ <;> decide

/-- C8 (amended): for a mail whose declared top-level type (up to the first
`;`, trimmed) is `text/plain` or `text/html`, the Text handler writes the
sole body `Body[0]` verbatim under the corresponding extension; for the
declared types `multipart/alternative` and `multipart/mixed` — and only
those two multipart types, the others being no-ops like every remaining
type — it iterates the inline bodies in order, choosing `.txt` or `.html`
from each part's own sniffed type and skipping parts sniffed as neither. -/
theorem text_handler_by_declared_type
    (sniff : List Nat → String) (h : TextHandler) (mail : Mail)
    (b0 : List Nat) (bs : List (List Nat)) (dir base : String)
    (hBody : mail.Body = b0 :: bs)
    (hdir : mail.getDirectoryName "mail" h.username = some dir)
    (hbase : base = sanitizeSubject mail.Subject ++ "-" ++ mail.Date.formatISO ++
      "-" ++ natToString mail.Uid) :
    (mimeType mail.MimeType = "text/plain" →
      TextHandler.Handle sniff h mail = some [(dir ++ "/" ++ base ++ ".txt", b0)]) ∧
    (mimeType mail.MimeType = "text/html" →
      TextHandler.Handle sniff h mail = some [(dir ++ "/" ++ base ++ ".html", b0)]) ∧
    ((mimeType mail.MimeType = "multipart/alternative" ∨
        mimeType mail.MimeType = "multipart/mixed") →
      TextHandler.Handle sniff h mail =
        some ((b0 :: bs).filterMap (fun b =>
          if mimeType (sniff b) = "text/plain" then
            some (dir ++ "/" ++ base ++ ".txt", b)
          else if mimeType (sniff b) = "text/html" then
            some (dir ++ "/" ++ base ++ ".html", b)
          else none))) ∧
    (mimeType mail.MimeType ≠ "text/plain" →
      mimeType mail.MimeType ≠ "text/html" →
      mimeType mail.MimeType ≠ "multipart/alternative" →
      mimeType mail.MimeType ≠ "multipart/mixed" →
      TextHandler.Handle sniff h mail = some []) := by
  subst hbase
  refine ⟨?_, ?_, ?_, ?_⟩
  · intro hd
    simp [TextHandler.Handle, hBody, hdir, hd]
  · intro hd
    simp [TextHandler.Handle, hBody, hdir, hd]
  · intro hd
    rcases hd with hd | hd <;>
      simp [TextHandler.Handle, hBody, hdir, hd, multipartWrites_eq_filterMap]
  · intro h1 h2 h3 h4
    simp [TextHandler.Handle, hBody, hdir, h1, h2, h3, h4]

/-- Witness for the amended C8 on a `multipart/mixed` mail with one plain
and one HTML body. -/
theorem text_handler_by_declared_type_witness :
    TextHandler.Handle sniff0 ⟨"user"⟩
      { Mail.empty with
        Uid := 8
        Subject := "Hi"
        From := [⟨"", "a", "b.com"⟩]
        Date := ⟨2024, 3, 4⟩
        Body := [[104], [60, 104]]
        MimeType := "multipart/mixed" } =
      some [("mail/user/202403/b.com/Hi-2024-03-04-8.txt", [104]),
        ("mail/user/202403/b.com/Hi-2024-03-04-8.html", [60, 104])] := by
  have h := text_handler_by_declared_type sniff0 ⟨"user"⟩
    { Mail.empty with
      Uid := 8
      Subject := "Hi"
      From := [⟨"", "a", "b.com"⟩]
      Date := ⟨2024, 3, 4⟩
      Body := [[104], [60, 104]]
      MimeType := "multipart/mixed" }
    [104] [[60, 104]] "mail/user/202403/b.com" "Hi-2024-03-04-8"
    rfl (by decide) (by decide)
  exact (h.2.2.1 (Or.inr (by decide))).trans (by decide)

/-- C10: in the Text handler's multipart branch every write goes to one of
the two fixed filenames `<subject>-<date>-<uid>.txt` / `.html`; in
particular every sniffed-`text/plain` inline body is written to the same
`.txt` path, each later one overwriting the earlier, so after the handler
runs that file holds exactly the last such body. -/
theorem text_handler_multipart_overwrites
    (sniff : List Nat → String) (h : TextHandler) (mail : Mail) (fs : ByteFS)
    (b0 : List Nat) (bs : List (List Nat)) (dir base : String)
    (ws : List (String × List Nat)) (bl : List Nat)
    (hBody : mail.Body = b0 :: bs)
    (hdir : mail.getDirectoryName "mail" h.username = some dir)
    (hbase : base = sanitizeSubject mail.Subject ++ "-" ++ mail.Date.formatISO ++
      "-" ++ natToString mail.Uid)
    (hmt : mimeType mail.MimeType = "multipart/alternative" ∨
      mimeType mail.MimeType = "multipart/mixed")
    (hws : TextHandler.Handle sniff h mail = some ws)
    (hlast : (mail.Body.filter
        (fun b => decide (mimeType (sniff b) = "text/plain"))).getLast? = some bl) :
    (∀ w ∈ ws,
      w.1 = dir ++ "/" ++ base ++ ".txt" ∨ w.1 = dir ++ "/" ++ base ++ ".html") ∧
    applyWrites fs ws (dir ++ "/" ++ base ++ ".txt") = some bl := by
  have hwseq : ws = multipartWrites sniff dir base mail.Body := by
    rcases hmt with hd | hd <;>
      · subst hbase
        rw [hBody]
        simp [TextHandler.Handle, hBody, hdir, hd] at hws
        exact hws.symm
  constructor
  · rw [hwseq]
    exact multipartWrites_names sniff dir base mail.Body
  · have hp : ∀ b : List Nat,
        (decide (mimeType (sniff b) = "text/plain") = true) ↔
          (dir ++ "/" ++ base ++ ".txt" = dir ++ "/" ++ base ++ ".txt" ∧
            mimeType (sniff b) = "text/plain") ∨
          (dir ++ "/" ++ base ++ ".txt" = dir ++ "/" ++ base ++ ".html" ∧
            mimeType (sniff b) = "text/html") := by
      intro b
      constructor
      · intro hpb
        exact Or.inl ⟨rfl, of_decide_eq_true hpb⟩
      · intro hor
        rcases hor with ⟨_, hb⟩ | ⟨hcontra, _⟩
        · exact decide_eq_true hb
        · exact absurd hcontra (txt_ne_html (dir ++ "/" ++ base))
    rw [hwseq, applyWrites_multipart_last sniff dir base mail.Body
      (dir ++ "/" ++ base ++ ".txt") (Or.inl rfl)
      (fun b => decide (mimeType (sniff b) = "text/plain")) hp fs,
      foldl_lastFilter, hlast]

/-- Witness for C10: two sniffed-plain bodies, the second overwrites the
first in the fixed `.txt` file. -/
theorem text_handler_multipart_overwrites_witness :
    (∀ w ∈ [("mail/user/202405/b.com/S-2024-05-06-12.txt", ([104] : List Nat)),
        ("mail/user/202405/b.com/S-2024-05-06-12.txt", [105]),
        ("mail/user/202405/b.com/S-2024-05-06-12.html", [60])],
      w.1 = "mail/user/202405/b.com/S-2024-05-06-12" ++ ".txt" ∨
      w.1 = "mail/user/202405/b.com/S-2024-05-06-12" ++ ".html") ∧
    applyWrites (fun _ => none)
      [("mail/user/202405/b.com/S-2024-05-06-12.txt", [104]),
        ("mail/user/202405/b.com/S-2024-05-06-12.txt", [105]),
        ("mail/user/202405/b.com/S-2024-05-06-12.html", [60])]
      ("mail/user/202405/b.com/S-2024-05-06-12" ++ ".txt") = some [105] := by
  have h := text_handler_multipart_overwrites sniff0 ⟨"user"⟩
    { Mail.empty with
      Uid := 12
      Subject := "S"
      From := [⟨"", "a", "b.com"⟩]
      Date := ⟨2024, 5, 6⟩
      Body := [[104], [105], [60]]
      MimeType := "multipart/mixed" }
    (fun _ => none)
    [104] [[105], [60]] "mail/user/202405/b.com" "S-2024-05-06-12"
    [("mail/user/202405/b.com/S-2024-05-06-12.txt", [104]),
      ("mail/user/202405/b.com/S-2024-05-06-12.txt", [105]),
      ("mail/user/202405/b.com/S-2024-05-06-12.html", [60])]
    [105]
    rfl (by decide) (by decide) (Or.inr (by decide)) (by decide) (by decide)
  exact h
